import Mathlib

set_option maxRecDepth 10000

namespace Blockchain

/-- Hash strings are modelled as lists of characters (Go strings of hex digits). -/
abbrev HashStr := List Char

/-- Modelled from the spec: `signature.ZeroHash` (the signature package is not under
src/). Spec section 6 fixes the zero-hash as `"0x"` followed by 64 `'0'` characters. -/
def ZeroHash : HashStr := '0' :: 'x' :: List.replicate 64 '0'

/-- The fixed comparison template used by `isHashSolved` in
`foundation/blockchain/database/block.go` line 200: the 19-character constant
`"0x00000000000000000"` (a `"0x"` prefix followed by 17 zeros). -/
def matchTemplate : HashStr := "0x00000000000000000".toList

/-- Embedding of `isHashSolved` (block.go lines 199-208). `difficulty` is a Go
`uint16`, so the `difficulty += 2` wraps modulo 2^16 (= 65536). Go string slicing
`s[:k]` only succeeds for `k ≤ len(s)`; an out-of-range slice is a runtime panic,
modelled as `none`. The source evaluates `hash[:difficulty]` before
`match[:difficulty]`, hence the order of the two bound checks. -/
def isHashSolved (difficulty : Nat) (hash : HashStr) : Option Bool :=
  if hash.length ≠ 66 then some false
  else if (difficulty % 65536 + 2) % 65536 ≤ hash.length then
    if (difficulty % 65536 + 2) % 65536 ≤ matchTemplate.length then
      some (hash.take ((difficulty % 65536 + 2) % 65536) ==
        matchTemplate.take ((difficulty % 65536 + 2) % 65536))
    else none
  else none

/-- Number of leading `'0'` characters of a character list. -/
def countLeadingZeros (l : List Char) : Nat :=
  (l.takeWhile (fun c => c == '0')).length

/-- C1 as stated by the spec, at a difficulty `d` and hash `h`: solved iff the hash
has length 66, starts with `"0x"`, and has exactly `d` leading zeros thereafter. -/
def claimC1 (d : Nat) (h : HashStr) : Prop :=
  isHashSolved d h = some true ↔
    (h.length = 66 ∧ h.take 2 = ['0', 'x'] ∧ countLeadingZeros (h.drop 2) = d)

/-- A length-66 hash starting with "0x00" and otherwise 'f': it has two leading zero
hex digits after the prefix. -/
def hashTwoZeros : HashStr := '0' :: 'x' :: '0' :: '0' :: List.replicate 62 'f'

namespace merkle

variable {T : Type}

/-- Modelled from the spec: the merkle package is not under src/ (only its callers).
Spec section 4.3: a binary merkle tree over the ordered sequence of leaves; the tree
is built from, and `Values` returns, the ordered leaf values. -/
structure Tree (T : Type) where
  values : List T
deriving DecidableEq

/-- Modelled from the spec: tree construction. Spec section 4.3 defines the root for
every leaf list including the empty one, so construction does not fail; the Go
signature carries an error that this model never produces. -/
def NewTree (values : List T) : Except String (Tree T) := .ok ⟨values⟩

/-- Modelled from the spec: the ordered leaf values of the tree. -/
def Tree.Values (t : Tree T) : List T := t.values

/-- Modelled from the spec: one level of parent hashes; pairs are combined with the
pair hash and, when a level has odd length, the last node is duplicated
(spec section 4.3, Bitcoin convention). -/
def combineLevel (hp : HashStr → HashStr → HashStr) : List HashStr → List HashStr
  | [] => []
  | [a] => [hp a a]
  | a :: b :: rest => hp a b :: combineLevel hp rest

/-- Modelled from the spec: fold the levels up to the root. The first argument is
fuel bounding the number of levels; each level at least halves the list, so the
list length is enough fuel and the zero-fuel arm is never reached. An empty leaf
set yields the zero root (spec section 4.3). -/
def merkleLevels (hp : HashStr → HashStr → HashStr) : Nat → List HashStr → HashStr
  | _, [] => ZeroHash
  | _, [a] => a
  | 0, a :: _ :: _ => a
  | fuel + 1, a :: b :: rest => merkleLevels hp fuel (hp a b :: combineLevel hp rest)

/-- Modelled from the spec: the merkle root over a list of leaf hashes. -/
def merkleRootHashes (hp : HashStr → HashStr → HashStr) (l : List HashStr) : HashStr :=
  merkleLevels hp l.length l

/-- Modelled from the spec: `RootHex` of the merkle tree. The leaf hash `hl` and the
pair hash `hp` are abstract parameters standing for keccak-256 of the canonical
leaf JSON and of the concatenated child hashes, rendered hex. -/
def Tree.RootHex (hl : T → HashStr) (hp : HashStr → HashStr → HashStr)
    (t : Tree T) : HashStr :=
  merkleRootHashes hp (t.values.map hl)

end merkle

/-- `AccountID` from the database package (string-typed hex address). -/
abbrev AccountID := String

/-- Embedding of `BlockHeader` (block.go lines 26-36). Go unsigned integers are
modelled as `Nat`; wrap-around is applied explicitly at the operations where it can
occur (the nonce search). -/
structure BlockHeader where
  Number : Nat
  PrevBlockHash : HashStr
  TimeStamp : Nat
  BeneficiaryID : AccountID
  Difficulty : Nat
  MiningReward : Nat
  StateRoot : HashStr
  TransRoot : HashStr
  Nonce : Nat
deriving DecidableEq

/-- Embedding of `Block` (block.go lines 40-43). The Go field is a pointer
`*merkle.Tree`; the nil pointer of the zero Block is modelled as `none`. -/
structure Block (T : Type) where
  Header : BlockHeader
  MerkleTree : Option (merkle.Tree T)
deriving DecidableEq

/-- Embedding of `BlockData` (block.go lines 17-21). -/
structure BlockData (T : Type) where
  Hash : HashStr
  Header : BlockHeader
  Trans : List T
deriving DecidableEq

/-- The Go zero value of `BlockHeader`: zero numbers and empty strings. -/
def zeroHeader : BlockHeader :=
  { Number := 0, PrevBlockHash := [], TimeStamp := 0, BeneficiaryID := "",
    Difficulty := 0, MiningReward := 0, StateRoot := [], TransRoot := [], Nonce := 0 }

variable {T : Type}

/-- The Go zero value `Block{}`: zero header and nil merkle tree. -/
def emptyBlock : Block T := { Header := zeroHeader, MerkleTree := none }

/-- Embedding of the `Hash` method on `Block` (block.go lines 178-195). `hashFn`
abstracts `signature.Hash` (keccak-256 of the header JSON; the signature package is
not under src/). -/
def Block.Hash (hashFn : BlockHeader → HashStr) (b : Block T) : HashStr :=
  if b.Header.Number = 0 then ZeroHash else hashFn b.Header

/-- Embedding of `NewBlockData` (block.go lines 152-160). The source dereferences
`block.MerkleTree` unconditionally; a nil tree would be a nil-pointer panic,
modelled as `none`. -/
def NewBlockData (hashFn : BlockHeader → HashStr) (b : Block T) :
    Option (BlockData T) :=
  match b.MerkleTree with
  | none => none
  | some t =>
    some { Hash := Block.Hash hashFn b, Header := b.Header, Trans := t.Values }

/-- Embedding of `ToBlock` (block.go lines 163-175). -/
def ToBlock (bd : BlockData T) : Except String (Block T) :=
  match merkle.NewTree bd.Trans with
  | .error e => .error e
  | .ok tree => .ok { Header := bd.Header, MerkleTree := some tree }

/-- Embedding of `POWArgs` (block.go lines 46-54); the logging closure `EvHandler`
has no effect on the computed values and is omitted. -/
structure POWArgs (T : Type) where
  BeneficiaryID : AccountID
  Difficulty : Nat
  MiningReward : Nat
  PrevBlock : Block T
  StateRoot : HashStr
  Trans : List T

/-- `math.MaxInt64` = 2^63 - 1, the exclusive upper bound handed to `rand.Int` at
block.go line 109. -/
def maxInt64 : Nat := 9223372036854775807

/-- The initial nonce produced from a random draw `r < maxInt64` at block.go lines
109-113: `nBig.Uint64()` of a value below 2^63 is the value itself; the conversion
is modulo 2^64 (= 18446744073709551616). -/
def initialNonce (draw : Nat) : Nat := draw % 18446744073709551616

/-- Outcome of `performPOW`. The Go method returns `error`; `cancelled` is the
`ctx.Err()` return, `panicked` models the out-of-range slice inside `isHashSolved`,
`diverged` means the search loop has not returned within the given fuel, and
`solved b` is the nil-error return with the block mutated to `b`. -/
inductive POWStatus (T : Type) where
  | diverged
  | panicked
  | cancelled
  | solved (b : Block T)
deriving DecidableEq

/-- Embedding of the search loop of `performPOW` (block.go lines 117-148). `ctxErr`
maps the index of a `ctx.Err()` poll to whether the context reports cancellation at
that moment; `fuel` bounds the number of iterations; the nonce increment wraps at
2^64 (Go `uint64`). Each iteration polls cancellation first, then hashes the block
and checks the puzzle; a solved hash is followed by a second poll before the
successful return. -/
def powLoop (hashFn : BlockHeader → HashStr) (ctxErr : Nat → Bool) :
    Nat → Nat → Block T → POWStatus T
  | 0, _, _ => .diverged
  | fuel + 1, polls, b =>
    if ctxErr polls then .cancelled
    else
      match isHashSolved b.Header.Difficulty (Block.Hash hashFn b) with
      | none => .panicked
      | some true => if ctxErr (polls + 1) then .cancelled else .solved b
      | some false =>
        powLoop hashFn ctxErr fuel (polls + 1)
          { b with Header :=
            { b.Header with Nonce := (b.Header.Nonce + 1) % 18446744073709551616 } }

/-- Embedding of `performPOW` (block.go lines 98-148): set the nonce to the random
starting point, then run the search loop. The event-handler logging has no effect
on the result and is omitted. -/
def performPOW (hashFn : BlockHeader → HashStr) (ctxErr : Nat → Bool)
    (draw fuel : Nat) (b : Block T) : POWStatus T :=
  powLoop hashFn ctxErr fuel 0
    { b with Header := { b.Header with Nonce := initialNonce draw } }

/-- Outcome of `POW`, a pair (Block, error) in Go: `ok b` is `(b, nil)`,
`cancelledErr b` is `(Block{}, ctx.Err())`, `merkleError b` is `(Block{}, err)` from
tree construction (never produced by the spec-modelled tree), and
`diverged` / `panicked` are the non-returning outcomes of the search loop. -/
inductive POWResult (T : Type) where
  | diverged
  | panicked
  | merkleError (b : Block T)
  | cancelledErr (b : Block T)
  | ok (b : Block T)
deriving DecidableEq

/-- Embedding of `POW` (block.go lines 58-94): compute the previous block hash (zero
sentinel when the previous block is the genesis block), build the merkle tree,
construct the candidate header, and run `performPOW`. `ts` abstracts
`time.Now().UTC().UnixMilli()`. -/
def POW (hashFn : BlockHeader → HashStr) (hl : T → HashStr)
    (hp : HashStr → HashStr → HashStr) (ctxErr : Nat → Bool)
    (ts draw fuel : Nat) (args : POWArgs T) : POWResult T :=
  let prevBlockHash :=
    if args.PrevBlock.Header.Number > 0 then Block.Hash hashFn args.PrevBlock
    else ZeroHash
  match merkle.NewTree args.Trans with
  | .error _ => .merkleError emptyBlock
  | .ok tree =>
    let block : Block T :=
      { Header :=
          { Number := args.PrevBlock.Header.Number + 1
            PrevBlockHash := prevBlockHash
            TimeStamp := ts
            BeneficiaryID := args.BeneficiaryID
            Difficulty := args.Difficulty
            MiningReward := args.MiningReward
            StateRoot := args.StateRoot
            TransRoot := tree.RootHex hl hp
            Nonce := 0 }
        MerkleTree := some tree }
    match performPOW hashFn ctxErr draw fuel block with
    | .diverged => .diverged
    | .panicked => .panicked
    | .cancelled => .cancelledErr emptyBlock
    | .solved b => .ok b

/-- Modelled from the spec: `Account` (its source file is not under src/). Spec
section 3: id, balance and nonce; `newAccount` starts the nonce at zero. -/
structure Account where
  accountID : AccountID
  Balance : Nat
  Nonce : Nat
deriving DecidableEq

/-- Modelled from the spec: `newAccount` as used by `database.New`. -/
def newAccount (id : AccountID) (balance : Nat) : Account := ⟨id, balance, 0⟩

/-- Embedding of the `Database` state set up by `database.New` (src/unnamed/part_000):
the latest-block handle, the in-memory account ledger and the storage handle. -/
structure Database (T : Type) where
  latestBlock : Block T
  accounts : List (AccountID × Account)
  storage : List (BlockData T)
deriving DecidableEq

/-- The genesis-balance loop of `database.New`: convert each address with
`ToAccountID` (abstracted as `toAccountID`; its source file is not under src/) and
store a fresh account; any conversion failure aborts the constructor. -/
def applyGenesisBalances (toAccountID : String → Option AccountID) :
    List (String × Nat) → Option (List (AccountID × Account))
  | [] => some []
  | (s, bal) :: rest =>
    match toAccountID s with
    | none => none
    | some id =>
      match applyGenesisBalances toAccountID rest with
      | none => none
      | some m => some ((id, newAccount id bal) :: m)

/-- Embedding of `database.New` (src/unnamed/part_000 lines 124-163). The boot-time
chain replay over `storage` is commented out in the source, so the constructor only
applies genesis balances: `latestBlock` stays the zero Block value and the storage
contents are held but never read. -/
def New (toAccountID : String → Option AccountID)
    (genesisBalances : List (String × Nat)) (storage : List (BlockData T)) :
    Option (Database T) :=
  match applyGenesisBalances toAccountID genesisBalances with
  | none => none
  | some accts =>
    some { latestBlock := emptyBlock, accounts := accts, storage := storage }

/-- Concrete hash function for witnesses: every header hashes to the zero hash. -/
def wHashFn : BlockHeader → HashStr := fun _ => ZeroHash

/-- Concrete leaf hash for witnesses. -/
def wLeaf : Unit → HashStr := fun _ => []

/-- Concrete pair hash for witnesses. -/
def wPair : HashStr → HashStr → HashStr := fun _ _ => []

/-- A context that never reports cancellation. -/
def wCtxFalse : Nat → Bool := fun _ => false

/-- A context that reports cancellation from the start. -/
def wCtxTrue : Nat → Bool := fun _ => true

/-- Concrete POW arguments for witnesses: genesis previous block, difficulty 1,
empty transaction list. -/
def wArgs : POWArgs Unit :=
  { BeneficiaryID := "", Difficulty := 1, MiningReward := 0,
    PrevBlock := emptyBlock, StateRoot := [], Trans := [] }

/-- The block that `POW` produces from `wArgs` under `wHashFn` in one iteration. -/
def wPOWBlock : Block Unit :=
  { Header :=
      { Number := 1, PrevBlockHash := ZeroHash, TimeStamp := 0, BeneficiaryID := "",
        Difficulty := 1, MiningReward := 0, StateRoot := [], TransRoot := ZeroHash,
        Nonce := 0 }
    MerkleTree := some ⟨[]⟩ }

/-- A concrete mineable input block for the `performPOW` witness. -/
def wBlockIn : Block Unit :=
  { Header := { zeroHeader with Number := 1, Difficulty := 1 }
    MerkleTree := some ⟨[]⟩ }

/-- A concrete block with a one-leaf merkle tree for the round-trip witness. -/
def wTreeBlock : Block Unit := { Header := zeroHeader, MerkleTree := some ⟨[()]⟩ }

/-- A persisted block with header number 1, used to exercise `database.New`. -/
def storedBlockData : BlockData Unit :=
  { Hash := ZeroHash, Header := { zeroHeader with Number := 1 }, Trans := [] }

theorem matchTemplate_eq : matchTemplate = '0' :: 'x' :: List.replicate 17 '0' := by
  decide

theorem matchTemplate_length : matchTemplate.length = 19 := by decide

theorem take_eq_replicate_iff :
    ∀ (l : List Char) (d : Nat), d ≤ l.length →
      (l.take d = List.replicate d '0' ↔ d ≤ countLeadingZeros l)
  | _, 0, _ => by simp
  | [], d + 1, h => by simp at h
  | c :: t, d + 1, h => by
    have ih := take_eq_replicate_iff t d (by simpa using h)
    by_cases hc : c = '0'
    · subst hc
      have hcz : countLeadingZeros ('0' :: t) = countLeadingZeros t + 1 := by
        simp [countLeadingZeros, List.takeWhile_cons]
      rw [List.take_succ_cons, List.replicate_succ, hcz]
      simp only [List.cons.injEq, true_and]
      rw [ih]
      omega
    · have hcz : countLeadingZeros (c :: t) = 0 := by
        simp [countLeadingZeros, List.takeWhile_cons, hc]
      rw [List.take_succ_cons, List.replicate_succ, hcz]
      simp only [List.cons.injEq]
      constructor
      · rintro ⟨rfl, -⟩
        exact (hc rfl).elim
      · intro hx
        exact absurd hx (by omega)

theorem combineLevel_length (hp : HashStr → HashStr → HashStr) :
    ∀ l : List HashStr, (merkle.combineLevel hp l).length = (l.length + 1) / 2
  | [] => by simp [merkle.combineLevel]
  | [a] => by simp [merkle.combineLevel]
  | a :: b :: rest => by
    simp [merkle.combineLevel, combineLevel_length hp rest]
    omega

/-- C1: the claim as stated is false. At difficulty 1, a hash with two leading zero
hex digits (more than the difficulty) is reported solved by `isHashSolved`, while the
claim requires exactly one leading zero. -/
theorem C1_counterexample : ¬ claimC1 1 hashTwoZeros := by
  unfold claimC1
  decide

/-- C1 (amended): for difficulties up to 17 (the capacity of the fixed template),
`isHashSolved d h = some true` iff `h` has length 66 and starts with `"0x"` followed
by at least `d` zero characters. -/
theorem C1_amended (d : Nat) (h : HashStr) (hd : d ≤ 17) :
    isHashSolved d h = some true ↔
      (h.length = 66 ∧ h.take 2 = ['0', 'x'] ∧ d ≤ countLeadingZeros (h.drop 2)) := by
  by_cases hlen : h.length = 66
  · rcases h with _ | ⟨a, h'⟩
    · simp at hlen
    rcases h' with _ | ⟨b, t⟩
    · simp at hlen
    have ht : t.length = 64 := by simpa using hlen
    have hd2 : (d % 65536 + 2) % 65536 = d + 2 := by omega
    have key : isHashSolved d (a :: b :: t) =
        some ((a :: b :: t).take (d + 2) == matchTemplate.take (d + 2)) := by
      unfold isHashSolved
      rw [hd2, if_neg (by simp [hlen] : ¬(a :: b :: t).length ≠ 66),
        if_pos (by simp [ht]; omega), if_pos (by rw [matchTemplate_length]; omega)]
    have htake : (a :: b :: t).take (d + 2) = a :: b :: t.take d := rfl
    have hmt : matchTemplate.take (d + 2) = '0' :: 'x' :: List.replicate d '0' := by
      rw [matchTemplate_eq]
      show '0' :: 'x' :: List.take d (List.replicate 17 '0') = _
      rw [List.take_replicate, min_eq_left hd]
    have hrep := take_eq_replicate_iff t d (by omega)
    rw [key, htake, hmt]
    simp only [Option.some.injEq, beq_iff_eq, List.cons.injEq]
    constructor
    · rintro ⟨rfl, rfl, htk⟩
      exact ⟨hlen, rfl, hrep.mp htk⟩
    · rintro ⟨-, hpre, hz⟩
      have hab : a = '0' ∧ b = 'x' := by
        have hx : [a, b] = ['0', 'x'] := hpre
        simpa using hx
      exact ⟨hab.1, hab.2, hrep.mpr hz⟩
  · simp [isHashSolved, hlen]

/-- C1 amended claim witnessed at difficulty 1 on the all-zero hash. -/
theorem C1_amended_witness :
    isHashSolved 1 ZeroHash = some true ↔
      (ZeroHash.length = 66 ∧ ZeroHash.take 2 = ['0', 'x'] ∧
        1 ≤ countLeadingZeros (ZeroHash.drop 2)) :=
  C1_amended 1 ZeroHash (by decide)

/-- C2: at difficulty 18 (inside the spec's permitted range 1..=63) the check does
not evaluate to a boolean on a length-66 hash: `match[:20]` over-slices the
19-character template, a runtime panic in Go, modelled as `none`. -/
theorem C2_slice_out_of_bounds : isHashSolved 18 ZeroHash = none := by
  decide

/-- C3: the constructor does not replay storage. With empty genesis balances and a
storage holding one block numbered 1, `database.New` leaves the latest-block handle
at the zero block (number 0) and the ledger empty, because the boot-time chain
replay in the source is commented out. -/
theorem C3_boot_no_replay :
    New (fun s => some s) [] [storedBlockData] =
      some { latestBlock := emptyBlock, accounts := [], storage := [storedBlockData] } ∧
    storedBlockData.Header.Number ≠ (emptyBlock : Block Unit).Header.Number :=
  ⟨rfl, by decide⟩

/-- The search loop of `performPOW` only ever changes the nonce: a solved block
agrees with the input block on the merkle tree and on every header field other than
`Nonce`. -/
theorem powLoop_solved_frame (hashFn : BlockHeader → HashStr) (ctxErr : Nat → Bool) :
    ∀ (fuel polls : Nat) (b b' : Block T),
      powLoop hashFn ctxErr fuel polls b = .solved b' →
      b'.MerkleTree = b.MerkleTree ∧
      b'.Header.Number = b.Header.Number ∧
      b'.Header.PrevBlockHash = b.Header.PrevBlockHash ∧
      b'.Header.TimeStamp = b.Header.TimeStamp ∧
      b'.Header.BeneficiaryID = b.Header.BeneficiaryID ∧
      b'.Header.Difficulty = b.Header.Difficulty ∧
      b'.Header.MiningReward = b.Header.MiningReward ∧
      b'.Header.StateRoot = b.Header.StateRoot ∧
      b'.Header.TransRoot = b.Header.TransRoot
  | 0, polls, b, b', h => by simp [powLoop] at h
  | fuel + 1, polls, b, b', h => by
    simp only [powLoop] at h
    split at h
    · exact absurd h (by simp)
    · split at h
      · exact absurd h (by simp)
      · split at h
        · exact absurd h (by simp)
        · cases h
          exact ⟨rfl, rfl, rfl, rfl, rfl, rfl, rfl, rfl, rfl⟩
      · have ih := powLoop_solved_frame hashFn ctxErr fuel (polls + 1) _ b' h
        simpa using ih

/-- C10: a successful mining run modifies only the nonce. `performPOW` returns a
block that agrees with its input block on the merkle tree and on every header field
other than `Nonce`. -/
theorem C10_performPOW_frame (hashFn : BlockHeader → HashStr) (ctxErr : Nat → Bool)
    (draw fuel : Nat) (b b' : Block T)
    (h : performPOW hashFn ctxErr draw fuel b = .solved b') :
    b'.MerkleTree = b.MerkleTree ∧
    b'.Header.Number = b.Header.Number ∧
    b'.Header.PrevBlockHash = b.Header.PrevBlockHash ∧
    b'.Header.TimeStamp = b.Header.TimeStamp ∧
    b'.Header.BeneficiaryID = b.Header.BeneficiaryID ∧
    b'.Header.Difficulty = b.Header.Difficulty ∧
    b'.Header.MiningReward = b.Header.MiningReward ∧
    b'.Header.StateRoot = b.Header.StateRoot ∧
    b'.Header.TransRoot = b.Header.TransRoot := by
  unfold performPOW at h
  have hf := powLoop_solved_frame hashFn ctxErr fuel 0 _ b' h
  simpa using hf

/-- C10 witnessed on a concrete block that is solved in the first iteration. -/
theorem C10_performPOW_frame_witness :
    wBlockIn.MerkleTree = wBlockIn.MerkleTree ∧
    wBlockIn.Header.Number = wBlockIn.Header.Number ∧
    wBlockIn.Header.PrevBlockHash = wBlockIn.Header.PrevBlockHash ∧
    wBlockIn.Header.TimeStamp = wBlockIn.Header.TimeStamp ∧
    wBlockIn.Header.BeneficiaryID = wBlockIn.Header.BeneficiaryID ∧
    wBlockIn.Header.Difficulty = wBlockIn.Header.Difficulty ∧
    wBlockIn.Header.MiningReward = wBlockIn.Header.MiningReward ∧
    wBlockIn.Header.StateRoot = wBlockIn.Header.StateRoot ∧
    wBlockIn.Header.TransRoot = wBlockIn.Header.TransRoot :=
  C10_performPOW_frame wHashFn wCtxFalse 0 1 wBlockIn wBlockIn (by decide)

/-- A successful `POW` call returns the block built from the arguments: every header
field carries the prescribed value and the merkle tree is the tree over the supplied
transactions; only the nonce is chosen by the search. -/
theorem POW_ok_fields (hashFn : BlockHeader → HashStr) (hl : T → HashStr)
    (hp : HashStr → HashStr → HashStr) (ctxErr : Nat → Bool)
    (ts draw fuel : Nat) (args : POWArgs T) (b : Block T)
    (h : POW hashFn hl hp ctxErr ts draw fuel args = .ok b) :
    b.MerkleTree = some ⟨args.Trans⟩ ∧
    b.Header.Number = args.PrevBlock.Header.Number + 1 ∧
    b.Header.PrevBlockHash =
      (if args.PrevBlock.Header.Number > 0 then Block.Hash hashFn args.PrevBlock
       else ZeroHash) ∧
    b.Header.TimeStamp = ts ∧
    b.Header.BeneficiaryID = args.BeneficiaryID ∧
    b.Header.Difficulty = args.Difficulty ∧
    b.Header.MiningReward = args.MiningReward ∧
    b.Header.StateRoot = args.StateRoot ∧
    b.Header.TransRoot = merkle.Tree.RootHex hl hp ⟨args.Trans⟩ := by
  simp only [POW, merkle.NewTree] at h
  split at h
  · exact absurd h (by simp)
  · exact absurd h (by simp)
  · exact absurd h (by simp)
  · rename_i bsol heq
    cases h
    unfold performPOW at heq
    have hf := powLoop_solved_frame hashFn ctxErr fuel 0 _ _ heq
    simpa using hf

/-- C4: for every successful POW invocation, the returned header has
number = prev.number + 1, prev_block_hash = prev.hash() (zero sentinel when the
previous block is the number-0 genesis block), the provided timestamp, beneficiary,
difficulty, mining reward and state root, and trans_root equal to the merkle root
over the supplied transaction list. -/
theorem C4_pow_header (hashFn : BlockHeader → HashStr) (hl : T → HashStr)
    (hp : HashStr → HashStr → HashStr) (ctxErr : Nat → Bool)
    (ts draw fuel : Nat) (args : POWArgs T) (b : Block T)
    (h : POW hashFn hl hp ctxErr ts draw fuel args = .ok b) :
    b.Header.Number = args.PrevBlock.Header.Number + 1 ∧
    b.Header.PrevBlockHash =
      (if args.PrevBlock.Header.Number > 0 then Block.Hash hashFn args.PrevBlock
       else ZeroHash) ∧
    b.Header.TimeStamp = ts ∧
    b.Header.BeneficiaryID = args.BeneficiaryID ∧
    b.Header.Difficulty = args.Difficulty ∧
    b.Header.MiningReward = args.MiningReward ∧
    b.Header.StateRoot = args.StateRoot ∧
    b.Header.TransRoot = merkle.Tree.RootHex hl hp ⟨args.Trans⟩ := by
  obtain ⟨-, h1, h2, h3, h4, h5, h6, h7, h8⟩ :=
    POW_ok_fields hashFn hl hp ctxErr ts draw fuel args b h
  exact ⟨h1, h2, h3, h4, h5, h6, h7, h8⟩

/-- C4 witnessed on a concrete POW run that succeeds in one iteration. -/
theorem C4_pow_header_witness :
    wPOWBlock.Header.Number = wArgs.PrevBlock.Header.Number + 1 ∧
    wPOWBlock.Header.PrevBlockHash =
      (if wArgs.PrevBlock.Header.Number > 0 then Block.Hash wHashFn wArgs.PrevBlock
       else ZeroHash) ∧
    wPOWBlock.Header.TimeStamp = 0 ∧
    wPOWBlock.Header.BeneficiaryID = wArgs.BeneficiaryID ∧
    wPOWBlock.Header.Difficulty = wArgs.Difficulty ∧
    wPOWBlock.Header.MiningReward = wArgs.MiningReward ∧
    wPOWBlock.Header.StateRoot = wArgs.StateRoot ∧
    wPOWBlock.Header.TransRoot = merkle.Tree.RootHex wLeaf wPair ⟨wArgs.Trans⟩ :=
  C4_pow_header wHashFn wLeaf wPair wCtxFalse 0 0 1 wArgs wPOWBlock (by decide)

/-- C5: when the cancellation signal is raised at the time of the invocation, the
mining loop observes it at its first poll, `performPOW` returns the cancellation
error, and `POW` returns the cancellation error together with the empty block
value. -/
theorem C5_cancelled (hashFn : BlockHeader → HashStr) (hl : T → HashStr)
    (hp : HashStr → HashStr → HashStr) (ctxErr : Nat → Bool)
    (ts draw fuel : Nat) (args : POWArgs T) (b : Block T)
    (hc : ctxErr 0 = true) (hf : 0 < fuel) :
    performPOW hashFn ctxErr draw fuel b = .cancelled ∧
    POW hashFn hl hp ctxErr ts draw fuel args = .cancelledErr emptyBlock := by
  obtain ⟨n, rfl⟩ : ∃ n, fuel = n + 1 := ⟨fuel - 1, by omega⟩
  have hperf : ∀ b' : Block T, performPOW hashFn ctxErr draw (n + 1) b' = .cancelled := by
    intro b'
    unfold performPOW
    simp [powLoop, hc]
  refine ⟨hperf b, ?_⟩
  simp only [POW, merkle.NewTree, hperf]

/-- C5 witnessed with a context cancelled from the start. -/
theorem C5_cancelled_witness :
    performPOW wHashFn wCtxTrue 0 1 (emptyBlock : Block Unit) = .cancelled ∧
    POW wHashFn wLeaf wPair wCtxTrue 0 0 1 wArgs = .cancelledErr emptyBlock :=
  C5_cancelled wHashFn wLeaf wPair wCtxTrue 0 0 1 wArgs emptyBlock rfl (by decide)

/-- C6: converting a block (with a merkle tree) to serializable block data and back
yields the block itself: same header and a merkle tree with the same ordered values,
hence the same root. -/
theorem C6_roundtrip (hashFn : BlockHeader → HashStr) (b : Block T)
    (t : merkle.Tree T) (h : b.MerkleTree = some t) :
    NewBlockData hashFn b =
      some { Hash := Block.Hash hashFn b, Header := b.Header, Trans := t.Values } ∧
    ToBlock { Hash := Block.Hash hashFn b, Header := b.Header, Trans := t.Values } =
      .ok b := by
  obtain ⟨hdr, mt⟩ := b
  obtain ⟨vals⟩ := t
  subst h
  exact ⟨rfl, rfl⟩

/-- C6 witnessed on a concrete one-transaction block. -/
theorem C6_roundtrip_witness :
    NewBlockData wHashFn wTreeBlock =
      some { Hash := Block.Hash wHashFn wTreeBlock, Header := wTreeBlock.Header,
             Trans := merkle.Tree.Values ⟨[()]⟩ } ∧
    ToBlock { Hash := Block.Hash wHashFn wTreeBlock, Header := wTreeBlock.Header,
              Trans := merkle.Tree.Values ⟨[()]⟩ } = .ok wTreeBlock :=
  C6_roundtrip wHashFn wTreeBlock ⟨[()]⟩ rfl

/-- C7: for a POW invocation with an empty transaction list, merkle tree
construction succeeds, the root over the empty leaf set is the zero hash, and the
trans_root of any successfully mined block equals the zero hash. -/
theorem C7_empty_trans (hashFn : BlockHeader → HashStr) (hl : T → HashStr)
    (hp : HashStr → HashStr → HashStr) (ctxErr : Nat → Bool)
    (ts draw fuel : Nat) (args : POWArgs T) (b : Block T)
    (hT : args.Trans = []) :
    merkle.NewTree args.Trans = .ok ⟨[]⟩ ∧
    merkle.Tree.RootHex hl hp (⟨[]⟩ : merkle.Tree T) = ZeroHash ∧
    (POW hashFn hl hp ctxErr ts draw fuel args = .ok b →
      b.Header.TransRoot = ZeroHash) := by
  refine ⟨?_, ?_, fun hPOW => ?_⟩
  · rw [hT]
    rfl
  · rfl
  · obtain ⟨-, -, -, -, -, -, -, -, htr⟩ :=
      POW_ok_fields hashFn hl hp ctxErr ts draw fuel args b hPOW
    rw [htr, hT]
    rfl

/-- C7 witnessed on the concrete empty-transaction POW run. -/
theorem C7_empty_trans_witness :
    merkle.NewTree wArgs.Trans = .ok ⟨[]⟩ ∧
    merkle.Tree.RootHex wLeaf wPair (⟨[]⟩ : merkle.Tree Unit) = ZeroHash ∧
    (POW wHashFn wLeaf wPair wCtxFalse 0 0 1 wArgs = .ok wPOWBlock →
      wPOWBlock.Header.TransRoot = ZeroHash) :=
  C7_empty_trans wHashFn wLeaf wPair wCtxFalse 0 0 1 wArgs wPOWBlock rfl

/-- C8: the claim is false. The random draw is taken below `math.MaxInt64`
(2^63 - 1), so the all-ones 64-bit value 2^64 - 1 can never be the initial nonce. -/
theorem C8_counterexample :
    ¬ ∃ r : Nat, r < maxInt64 ∧ initialNonce r = 18446744073709551615 := by
  rintro ⟨r, h1, h2⟩
  unfold maxInt64 at h1
  unfold initialNonce at h2
  omega

/-- C8 (amended): the initial nonce ranges over exactly the values below
`math.MaxInt64` = 2^63 - 1; every such value arises from some draw and no other
value does. -/
theorem C8_amended (v : Nat) :
    (∃ r : Nat, r < maxInt64 ∧ initialNonce r = v) ↔ v < maxInt64 := by
  unfold maxInt64 initialNonce
  constructor
  · rintro ⟨r, h1, h2⟩
    omega
  · intro hv
    exact ⟨v, hv, by omega⟩

/-- C9: the block hash is the zero-hash sentinel exactly on header number 0,
regardless of the other header fields, and the keccak hash of the header otherwise;
the sentinel is "0x" followed by 64 zeros. -/
theorem C9_hash (hashFn : BlockHeader → HashStr) (b : Block T) :
    (b.Header.Number = 0 → Block.Hash hashFn b = ZeroHash) ∧
    (b.Header.Number ≠ 0 → Block.Hash hashFn b = hashFn b.Header) ∧
    ZeroHash = '0' :: 'x' :: List.replicate 64 '0' := by
  refine ⟨fun h0 => ?_, fun hn => ?_, rfl⟩
  · simp [Block.Hash, h0]
  · simp [Block.Hash, hn]

/-- C9 witnessed on the genesis (number-0) block. -/
theorem C9_hash_witness : Block.Hash wHashFn (emptyBlock : Block Unit) = ZeroHash :=
  (C9_hash wHashFn emptyBlock).1 rfl

end Blockchain
